import Mathlib

/-!
Verification development for the hindsight-machine claim-extraction pipeline
(`proof_please`): transcript chunking, multi-model claim extraction,
deduplication with canonical ID assignment, and validation-query generation.

Python modules `proof_please.pipeline.extract_claims`,
`proof_please.pipeline.pipeline_runner` and `proof_please.cli` are embedded
from source.  The repository imports several modules whose source files are
not part of the tree (`proof_please.pipeline.chunking`,
`proof_please.pipeline.dedupe`, `proof_please.pipeline.normalize`,
`proof_please.pipeline.generate_queries`, `proof_please.core.io`); their
definitions below are modelled from the specification and are marked as such.
-/

/-! ## String utilities

Python `str.strip` / `re.sub(r"\s+", " ", s.strip())` counterparts, modelled
over `List Char`.  `isWsChar` covers the ASCII whitespace class of Python's
regex `\s` (space, tab, newline, carriage return, form feed, vertical tab).
-/

def isWsChar (c : Char) : Bool :=
  c = ' ' || c = '\t' || c = '\n' || c = '\r' || c = '\x0c' || c = '\x0b'

/-- Strip leading whitespace of a character list. -/
def dropLeadWs (l : List Char) : List Char := l.dropWhile isWsChar

/-- Python `str.strip`: remove leading and trailing whitespace. -/
def trimChars (l : List Char) : List Char :=
  ((dropLeadWs l).reverse.dropWhile isWsChar).reverse

def trimWs (s : String) : String := String.mk (trimChars s.data)

/-- State machine for `re.sub(r"\s+", " ", s.strip())`: `started` records
whether a non-whitespace character has been emitted, `pending` records a
whitespace run awaiting a following word character. -/
def collapseGo : Bool → Bool → List Char → List Char
  | _, _, [] => []
  | started, pending, c :: cs =>
    if isWsChar c then collapseGo started (pending || started) cs
    else if pending then ' ' :: c :: collapseGo true false cs
    else c :: collapseGo true false cs

/-- Trim then collapse internal whitespace runs to single spaces, as
`re.sub(r"\s+", " ", s.strip())` does in `build_segment_block`. -/
def collapseWs (s : String) : String := String.mk (collapseGo false false s.data)

/-! ## Data model (spec §3) -/

/-- An evidence item `(seg_id, quote)` grounding a claim. -/
structure EvidenceItem where
  seg_id : String
  quote : String
deriving DecidableEq, Repr

/-- Canonical claim row (spec §3 `ClaimRow`).  `time_range_s` is flattened to
`time_start`/`time_end`; `provenance` to `run_id`/`input_refs`. -/
structure ClaimRow where
  claim_id : String
  doc_id : String
  speaker : Option String
  claim_text : String
  claim_type : String
  boldness_rating : Option Int
  model : String
  evidence : List EvidenceItem
  time_start : Int
  time_end : Int
  run_id : String
  input_refs : List String
deriving DecidableEq, Repr

instance : Inhabited ClaimRow :=
  ⟨⟨"", "", none, "", "", none, "", [], 0, 0, "", []⟩⟩

/-- A transcript segment as consumed by `build_segment_block` and
`extract_claims_for_models` (python side: a dict; `.get` defaults are folded
into the field values, `start_time_s` already coerced to an integer). -/
structure Segment where
  seg_id : String
  speaker : String
  start_time_s : Int
  text : String
deriving DecidableEq, Repr

/-- Raw evidence object inside a model response (untrusted; absent fields
default to the empty string). -/
structure RawEvidence where
  seg_id : String
  quote : String
deriving DecidableEq, Repr

/-- `RawClaimCandidate` (spec §3): untrusted model output, validated by
`normalize_claims`. -/
structure RawClaim where
  speaker : String
  claim_text : String
  evidence : List RawEvidence
  time_range : Option (Int × Int)
  claim_type : String
  boldness_rating : Option Int
deriving DecidableEq, Repr

/-- The `claims` field of a parsed response payload: absent
(`payload.get("claims", [])` then yields `[]`), present but not a list, or a
list of raw candidates. -/
inductive ClaimsField where
  | absent
  | notList
  | clist (claims : List RawClaim)
deriving DecidableEq, Repr

/-- Observable outcome of one chat call followed by JSON extraction, for one
(model, chunk) pair.  Modelled from the spec: `chat_with_model` is an injected
capability and `proof_please.core.io.extract_json_object` is absent from the
source tree; per the spec the latter locates and parses the JSON object
embedded in the model text and raises `ValueError` when none parses.  The
backend oracle therefore returns, per call, either a transport error
(`urllib.error.URLError`), another chat exception, a JSON parse failure, or a
parsed payload's `claims` field. -/
inductive ChatResult where
  | transportErr (msg : String)
  | chatErr (msg : String)
  | parseErr (msg : String)
  | payload (claims : ClaimsField)
deriving DecidableEq, Repr

/-! ## Segment chunker

Modelled from the spec (§4.1): `proof_please.pipeline.chunking.build_chunks`
is absent from the source tree.  Per the spec it produces the minimal number
of windows of length at most `size` covering the segments in order, adjacent
windows sharing `overlap` segments, stepping by `size - overlap`; an empty
input yields an empty chunk list.  The recursion is fuelled by the input
length, which suffices for the contract's precondition `0 ≤ overlap < size`
(the reference loop does not terminate for `step = 0`). -/
def chunksFromAux (size step : Nat) : Nat → List α → List (List α)
  | 0, l => [l.take size]
  | fuel + 1, l =>
    if l.length ≤ size then [l.take size]
    else l.take size :: chunksFromAux size step fuel (l.drop step)

/-- Modelled from the spec (§4.1): split segments into overlapping windows. -/
def build_chunks (segments : List α) (chunk_size chunk_overlap : Nat) :
    List (List α) :=
  if segments.isEmpty then []
  else chunksFromAux chunk_size (chunk_size - chunk_overlap) segments.length segments

/-! ## Claim normalization

Modelled from the spec (§4.2 step 4): `proof_please.pipeline.normalize` is
absent from the source tree.  Per the spec: trim/collapse whitespace in
`claim_text`; keep only candidates with non-empty `claim_text` and at least
one evidence item bearing a non-empty `seg_id`; resolve `time_range_s`
defensively from the evidence `seg_id → start_time_s` lookup when absent or
inconsistent with known segment starts; default `boldness_rating` to null
when absent or outside 1–3; coerce unknown `claim_type` values to the
catch-all category `other`. -/

/-- The fixed claim-type enumeration from the extraction prompt in
`extract_claims.build_prompt`. -/
def allowedClaimTypes : List String :=
  ["medical_risk", "treatment_effect", "nutrition_claim", "exercise_claim",
   "epidemiology", "other"]

/-- Modelled from the spec: resolve a claimed time range against the start
times of the claim's evidence segments; used when the model-supplied range is
absent or its start is not a known evidence start. -/
def resolveTimeRange (tr : Option (Int × Int)) (starts : List Int) : Int × Int :=
  match starts with
  | [] => tr.getD (0, 0)
  | h :: t =>
    match tr with
    | some (s, e) => if (h :: t).contains s then (s, e) else (t.foldl min h, t.foldl max h)
    | none => (t.foldl min h, t.foldl max h)

/-- Lookup in the `seg_id → start_time_s` mapping.  The python side builds a
dict by comprehension, so a repeated `seg_id` keeps the last entry. -/
def lookupSegStart (m : List (String × Int)) (k : String) : Option Int :=
  ((m.filter (fun p => p.1 = k)).getLast?).map (fun p => p.2)

/-- Modelled from the spec (§4.2 step 4): validate and normalize one raw
candidate; `none` drops the candidate. -/
def normalizeClaim (doc_id model run_id : String)
    (startBySeg : List (String × Int)) (rc : RawClaim) : Option ClaimRow :=
  let text := collapseWs rc.claim_text
  if text = "" then none
  else
    let ev := rc.evidence.filterMap fun e =>
      let sid := trimWs e.seg_id
      if sid = "" then none else some (⟨sid, e.quote⟩ : EvidenceItem)
    if ev = [] then none
    else
      let starts := ev.filterMap fun e => lookupSegStart startBySeg e.seg_id
      let tr := resolveTimeRange rc.time_range starts
      let sp := trimWs rc.speaker
      some
        { claim_id := ""
          doc_id := doc_id
          speaker := if sp = "" then none else some sp
          claim_text := text
          claim_type :=
            if allowedClaimTypes.contains rc.claim_type then rc.claim_type else "other"
          boldness_rating :=
            match rc.boldness_rating with
            | some b => if 1 ≤ b ∧ b ≤ 3 then some b else none
            | none => none
          model := model
          evidence := ev
          time_start := tr.1
          time_end := tr.2
          run_id := run_id
          input_refs := ev.map (fun e => e.seg_id) }

/-- Modelled from the spec (§4.2 step 4): `normalize_claims` validates each
raw candidate independently; invalid candidates are dropped without
affecting their siblings. -/
def normalize_claims (doc_id model run_id : String)
    (startBySeg : List (String × Int)) (raw : List RawClaim) : List ClaimRow :=
  raw.filterMap (normalizeClaim doc_id model run_id startBySeg)

/-! ## Deduplicator / ID assigner

Modelled from the spec (§4.3): `proof_please.pipeline.dedupe` is absent from
the source tree.  Two rows are duplicates when they share a `doc_id` and
their normalized claim text (case-folded, whitespace-collapsed) coincides;
the near-duplicate similarity measure is left unspecified by the spec (§9),
so the model uses the exact-match rule.  A duplicate group is merged by
keeping the earliest-evidence-time variant as representative, unioning
evidence deduplicated by `(seg_id, quote)`, taking the min start / max end,
the highest boldness rating (first occurrence on ties) and the first
non-null speaker.  After merging, rows are sorted by
`(time_range_s.start, claim_text)` and `claim_id = "clm_%06d"` is assigned
in that order, 1-based. -/

/-- Duplicate-equivalence key: `doc_id` plus case-folded,
whitespace-collapsed claim text. -/
def rowKey (r : ClaimRow) : String × String :=
  (r.doc_id, (collapseWs r.claim_text).toLower)

/-- Sort order used for ID assignment: by `(time_range_s.start, claim_text)`. -/
def rowLE (a b : ClaimRow) : Prop :=
  a.time_start < b.time_start ∨
    (a.time_start = b.time_start ∧ a.claim_text ≤ b.claim_text)

instance : DecidableRel rowLE := fun a b => by
  unfold rowLE; infer_instance

instance : IsTotal ClaimRow rowLE where
  total a b := by
    unfold rowLE
    rcases lt_trichotomy a.time_start b.time_start with h | h | h
    · exact Or.inl (Or.inl h)
    · rcases le_total a.claim_text b.claim_text with h2 | h2
      · exact Or.inl (Or.inr ⟨h, h2⟩)
      · exact Or.inr (Or.inr ⟨h.symm, h2⟩)
    · exact Or.inr (Or.inl h)

instance : IsTrans ClaimRow rowLE where
  trans a b c hab hbc := by
    unfold rowLE at *
    rcases hab with h1 | ⟨e1, l1⟩
    · rcases hbc with h2 | ⟨e2, _⟩
      · exact Or.inl (h1.trans h2)
      · exact Or.inl (e2 ▸ h1)
    · rcases hbc with h2 | ⟨e2, l2⟩
      · exact Or.inl (e1 ▸ h2)
      · exact Or.inr ⟨e1.trans e2, l1.trans l2⟩

/-- First-occurrence representative with the earliest `time_start`. -/
def earliestRep (r : ClaimRow) (rs : List ClaimRow) : ClaimRow :=
  rs.foldl (fun best x => if x.time_start < best.time_start then x else best) r

/-- Highest boldness rating present in the group (first occurrence on ties). -/
def maxBoldness (g : List ClaimRow) : Option Int :=
  g.foldl
    (fun best x =>
      match best, x.boldness_rating with
      | none, b => b
      | some b, some c => if b < c then some c else some b
      | some b, none => some b)
    none

/-- Merge one duplicate group (spec §4.3 merge policy).  The empty group
never arises; it maps to the placeholder row. -/
def mergeGroup : List ClaimRow → ClaimRow
  | [] => default
  | r :: rs =>
    let rep := earliestRep r rs
    { rep with
      evidence := ((r :: rs).map (fun x => x.evidence)).flatten.dedup
      time_start := (rs.map (fun x => x.time_start)).foldl min r.time_start
      time_end := (rs.map (fun x => x.time_end)).foldl max r.time_end
      boldness_rating := maxBoldness (r :: rs)
      speaker := ((r :: rs).filterMap (fun x => x.speaker)).head?
      input_refs :=
        (((r :: rs).map (fun x => x.evidence)).flatten.dedup).map (fun e => e.seg_id) }

/-- Collapse duplicate groups in first-occurrence order of their keys. -/
def mergeDuplicates (rows : List ClaimRow) : List ClaimRow :=
  ((rows.map rowKey).dedup).map fun k => mergeGroup (rows.filter (fun r => rowKey r = k))

/-- `"clm_%06d"`. -/
def fmtClaimId (n : Nat) : String :=
  let s := toString n
  "clm_" ++ String.mk (List.replicate (6 - s.length) '0') ++ s

/-- Assign `claim_id`s positionally, starting at `n`. -/
def assignIds : Nat → List ClaimRow → List ClaimRow
  | _, [] => []
  | n, r :: rs => { r with claim_id := fmtClaimId n } :: assignIds (n + 1) rs

/-- Modelled from the spec (§4.3): collapse duplicates, sort by
`(time_range_s.start, claim_text)`, then assign `clm_%06d` IDs 1-based. -/
def dedupe_and_assign_claim_ids (rows : List ClaimRow) : List ClaimRow :=
  assignIds 1 (List.insertionSort rowLE (mergeDuplicates rows))

/-! ## Claim extractor (embedded from
`src/proof_please/pipeline/extract_claims.py`) -/

/-- `build_segment_block`'s per-segment line, `"seg_id | start | speaker | text"`
with stripped `seg_id`/`speaker` and collapsed `text` (source lines 22–28). -/
def segmentLine (seg : Segment) : String :=
  trimWs seg.seg_id ++ " | " ++ toString seg.start_time_s ++ " | " ++
    trimWs seg.speaker ++ " | " ++ collapseWs seg.text

/-- The `lines` list accumulated by `build_segment_block`: one entry per
segment of `segments[:max_segments]` whose stripped `seg_id` and collapsed
`text` are non-empty. -/
def segmentLines (segments : List Segment) (max_segments : Nat) : List String :=
  (segments.take max_segments).filterMap fun seg =>
    if trimWs seg.seg_id = "" ∨ collapseWs seg.text = "" then none
    else some (segmentLine seg)

/-- `build_segment_block` (source lines 18–29): joins the accumulated lines
with newlines. -/
def build_segment_block (segments : List Segment) (max_segments : Nat) : String :=
  String.intercalate "\n" (segmentLines segments max_segments)

/-- The `start_time_by_seg_id` mapping (source lines 87–91). -/
def startTimeBySegId (segments : List Segment) : List (String × Int) :=
  segments.filterMap fun seg =>
    let sid := trimWs seg.seg_id
    if sid = "" then none else some (sid, seg.start_time_s)

/-- Status line of source line 95. -/
def startMsg (model : String) : String :=
  s!"Running extraction with model: {model}"

/-- Status line of source line 107. -/
def transportMsg (model : String) (i : Nat) (e : String) : String :=
  s!"Failed request for model {model}, chunk {i}: {e}"

/-- Status line of source line 110. -/
def chatFailMsg (model : String) (i : Nat) (e : String) : String :=
  s!"Model {model}, chunk {i} failed: {e}"

/-- Status line of source lines 117–120 (the snippet of the unparseable
response is folded into the oracle's error string). -/
def parseFailMsg (model : String) (i : Nat) (e : String) : String :=
  s!"Could not parse JSON response for {model}, chunk {i}: {e}"

/-- Status line of source line 125. -/
def noListMsg (model : String) (i : Nat) : String :=
  s!"Model {model}, chunk {i} returned no claims list."

/-- Status line of source line 136. -/
def chunkDoneMsg (model : String) (i n k : Nat) : String :=
  s!"{model} chunk {i}/{n}: {k} claims"

/-- Status line of source lines 140–143. -/
def modelDoneMsg (model : String) (k n : Nat) : String :=
  s!"Model {model} produced {k} unique claims across {n} chunks."

/-- Rows contributed by a single (model, chunk) call as a function of that
call's outcome alone (source lines 104–135): every failure shape contributes
nothing, a payload's `claims` list is normalized (`payload.get("claims", [])`
maps an absent field to the empty list). -/
def chunkRows (doc_id model run_id : String)
    (startBySeg : List (String × Int)) : ChatResult → List ClaimRow
  | .transportErr _ => []
  | .chatErr _ => []
  | .parseErr _ => []
  | .payload .notList => []
  | .payload .absent => normalize_claims doc_id model run_id startBySeg []
  | .payload (.clist cs) => normalize_claims doc_id model run_id startBySeg cs

/-- The per-chunk loop of `extract_claims_for_models` (source lines 97–136),
threading the caller-supplied status sink as explicit state.  `respond` is the
backend oracle keyed by model name and 1-based chunk index (the prompt is a
deterministic function of those for fixed inputs), `n` the chunk count. -/
def runChunks {σ : Type} (respond : String → Nat → ChatResult)
    (doc_id run_id model : String) (startBySeg : List (String × Int)) (n : Nat)
    (sink : σ → String → σ) :
    Nat → List (List Segment) → List ClaimRow → σ → List ClaimRow × σ
  | _, [], acc, s => (acc, s)
  | i, _ :: cs, acc, s =>
    match respond model i with
    | .transportErr e =>
      runChunks respond doc_id run_id model startBySeg n sink (i + 1) cs acc
        (sink s (transportMsg model i e))
    | .chatErr e =>
      runChunks respond doc_id run_id model startBySeg n sink (i + 1) cs acc
        (sink s (chatFailMsg model i e))
    | .parseErr e =>
      runChunks respond doc_id run_id model startBySeg n sink (i + 1) cs acc
        (sink s (parseFailMsg model i e))
    | .payload .notList =>
      runChunks respond doc_id run_id model startBySeg n sink (i + 1) cs acc
        (sink s (noListMsg model i))
    | .payload .absent =>
      let rows := normalize_claims doc_id model run_id startBySeg []
      runChunks respond doc_id run_id model startBySeg n sink (i + 1) cs (acc ++ rows)
        (sink s (chunkDoneMsg model i n rows.length))
    | .payload (.clist rawClaims) =>
      let rows := normalize_claims doc_id model run_id startBySeg rawClaims
      runChunks respond doc_id run_id model startBySeg n sink (i + 1) cs (acc ++ rows)
        (sink s (chunkDoneMsg model i n rows.length))

/-- The per-model loop of `extract_claims_for_models` (source lines 94–143):
per-model rows are deduplicated before joining the cross-model accumulator. -/
def runModels {σ : Type} (respond : String → Nat → ChatResult)
    (doc_id run_id : String) (startBySeg : List (String × Int))
    (chunks : List (List Segment)) (sink : σ → String → σ) :
    List String → List ClaimRow → σ → List ClaimRow × σ
  | [], acc, s => (acc, s)
  | m :: ms, acc, s =>
    let s1 := sink s (startMsg m)
    let step := runChunks respond doc_id run_id m startBySeg chunks.length sink 1 chunks [] s1
    let deduped := dedupe_and_assign_claim_ids step.1
    let s2 := sink step.2 (modelDoneMsg m deduped.length chunks.length)
    runModels respond doc_id run_id startBySeg chunks sink ms (acc ++ deduped) s2

/-- `extract_claims_for_models` (source lines 70–145).  The status callback
`on_status` is modelled as a state transformer `sink` with initial state `s0`;
the returned pair carries the deduplicated rows and the final sink state. -/
def extract_claims_for_models {σ : Type} (doc_id : String)
    (segments : List Segment) (model_list : List String)
    (respond : String → Nat → ChatResult) (chunk_size chunk_overlap : Nat)
    (sink : σ → String → σ) (s0 : σ) (run_id : String) : List ClaimRow × σ :=
  let chunks := build_chunks segments chunk_size chunk_overlap
  let sbs := startTimeBySegId segments
  let r := runModels respond doc_id run_id sbs chunks sink model_list [] s0
  (dedupe_and_assign_claim_ids r.1, r.2)

/-! ## Query generation

`proof_please.pipeline.generate_queries` and
`proof_please.pipeline.normalize`'s query helpers are absent from the source
tree; `choose_query_model`, `generate_heuristic_queries` and
`naturalize_query_question` are modelled from the spec (§4.4).
`run_query_generation` is embedded from
`src/proof_please/pipeline/pipeline_runner.py`. -/

/-- `QueryRow` (spec §3), with `provenance` flattened to
`run_id`/`input_refs`. -/
structure QueryRow where
  claim_id : String
  query : String
  why_this_query : String
  preferred_sources : List String
  run_id : String
  input_refs : List String
deriving DecidableEq, Repr

/-- The claim fields consumed by heuristic query generation. -/
structure ClaimInfo where
  claim_id : String
  claim_text : String
  claim_type : String
deriving DecidableEq, Repr

/-- The repetitive interrogative pattern detected by
`naturalize_query_question` (spec §4.4, fixed phrasing exercised by
`tests/pipeline/test_normalize_queries.py`). -/
def consensusLead : String :=
  "What is the current scientific consensus on whether "

/-- Strip every leading copy of `p` from `s` (fuelled structural recursion;
the fuel `s.length` bounds the number of strips since each removes at least
one character of a non-empty `p`). -/
def stripLeadAux (p : List Char) : Nat → List Char → List Char
  | 0, s => s
  | fuel + 1, s =>
    if p ≠ [] ∧ p.isPrefixOf s then stripLeadAux p fuel (s.drop p.length)
    else s

def stripLeadAll (p : List Char) (s : List Char) : List Char :=
  stripLeadAux p s.length s

/-- Modelled from the spec (§4.4): collapse a detected repetitive
interrogative lead of the query to the bare subordinate clause, preserving
the trailing question mark; the simplification is performed idempotently, so
the lead is stripped as long as it is present. -/
def naturalize_query_question (q : String) : String :=
  String.mk (stripLeadAll consensusLead.data q.data)

/-- Modelled from the spec (§4.4): the fixed-phrasing validation question for
a claim text, with the repetitive lead simplified away. -/
def heuristicQuery (claim_text : String) : String :=
  naturalize_query_question (consensusLead ++ claim_text ++ "?")

/-- Modelled from the spec (§4.4): fixed rationale template referencing the
claim type. -/
def heuristicWhy (claim_type : String) : String :=
  s!"Checks the strongest available evidence for this {claim_type} claim."

/-- Modelled from the spec (§4.4): fixed source-type hints seeded with
"systematic review". -/
def heuristicSources : List String :=
  ["systematic review", "meta-analysis", "clinical guideline"]

/-- Modelled from the spec (§4.4): heuristic fallback query generation, one
row per claim, provenance `{run_id, input_refs: [claim_id]}`. -/
def generate_heuristic_queries (claims : List ClaimInfo) (run_id : String) :
    List QueryRow :=
  claims.map fun c =>
    { claim_id := c.claim_id
      query := heuristicQuery c.claim_text
      why_this_query := heuristicWhy c.claim_type
      preferred_sources := heuristicSources
      run_id := run_id
      input_refs := [c.claim_id] }

/-- Modelled from the spec (§4.4): an explicit `query_model` is used
unconditionally; otherwise the first entry of `model_list` present in
`available_models` is selected; `none` signals "no model available". -/
def choose_query_model (query_model : Option String)
    (model_list available_models : List String) : Option String :=
  match query_model with
  | some m => some m
  | none => model_list.find? fun m => available_models.contains m

/-- Skip-status line of `run_query_generation`
(`pipeline_runner.py` lines 109–112). -/
def skipQueryMsg : String :=
  "Skipping query generation: no model available. Use --query-model or install a local model."

/-- Start-status line of `run_query_generation` (`pipeline_runner.py` line 115). -/
def genQueryMsg (model : String) : String :=
  s!"Generating validation queries with: {model}"

/-- `run_query_generation` (`pipeline_runner.py` lines 84–124).
`generate_validation_queries` is absent from the source tree and is passed as
an oracle `gvq` mapping the selected model to its produced rows and emitted
status lines; the status callback is modelled as an accumulated message
list. -/
def run_query_generation (claims : List ClaimInfo)
    (query_model : Option String) (model_list available_models : List String)
    (gvq : List ClaimInfo → String → List QueryRow × List String) :
    List QueryRow × List String :=
  match choose_query_model query_model model_list available_models with
  | none => ([], [skipQueryMsg])
  | some m => ((gvq claims m).1, genQueryMsg m :: (gvq claims m).2)

/-! ## CLI availability handling (embedded from `src/proof_please/cli.py`) -/

/-- `find_missing_models` (`pipeline_runner.py` lines 45–47). -/
def find_missing_models (requested_models available_models : List String) :
    List String :=
  requested_models.filter fun name => ¬ available_models.contains name

/-- Outcome of a command's model-availability handling: proceed with an
effective model list after optional warnings, or raise. -/
inductive CmdOutcome where
  | proceed (effective_models : List String) (warnings : List String)
  | fail (msg : String)
deriving DecidableEq, Repr

def CmdOutcome.isFail : CmdOutcome → Bool
  | .proceed _ _ => false
  | .fail _ => true

/-- Warning line of `cli.py` lines 168/213/269. -/
def missingWarn (missing : List String) : String :=
  s!"Requested models not found in model list: {missing}"

/-- Hard-failure message of `cli.py` lines 272–274. -/
def noModelsAvailableMsg : String :=
  "None of the requested models are available. Update --models or install one locally."

/-- Model-availability handling of `extract-claims` (`cli.py` lines 164–168):
missing models are warned about, the model list is used unchanged, and no
availability failure is ever raised. -/
def extract_claims_availability (model_list available_models : List String) :
    CmdOutcome :=
  let missing := find_missing_models model_list available_models
  .proceed model_list (if missing.isEmpty then [] else [missingWarn missing])

/-- Model-availability handling of `run-pipeline` (`cli.py` lines 266–274):
missing models are warned about and filtered out; an emptied effective list
raises before extraction. -/
def run_pipeline_availability (model_list available_models : List String) :
    CmdOutcome :=
  let missing := find_missing_models model_list available_models
  if missing.isEmpty then .proceed model_list []
  else
    let effective := model_list.filter fun m => ¬ missing.contains m
    if effective.isEmpty then .fail noModelsAvailableMsg
    else .proceed effective [missingWarn missing]

/-- The status line demanded for a failing (model, chunk) call
(`extract_claims.py` lines 104–126): `none` for the outcomes that contribute
rows. -/
def failureStatus (model : String) (i : Nat) : ChatResult → Option String
  | .transportErr e => some (transportMsg model i e)
  | .chatErr e => some (chatFailMsg model i e)
  | .parseErr e => some (parseFailMsg model i e)
  | .payload .notList => some (noListMsg model i)
  | .payload .absent => none
  | .payload (.clist _) => none

/-- The status sink used by the CLI commands, modelled as message-list
accumulation (`cli.py` `_status` prints each line). -/
def listSink (l : List String) (m : String) : List String := l ++ [m]

/-! ## Helper lemmas -/

theorem stripLeadAux_not_pre (p : List Char) (hp : p ≠ []) :
    ∀ fuel s, List.length s ≤ fuel →
      (p.isPrefixOf (stripLeadAux p fuel s)) = false := by
  intro fuel
  induction fuel with
  | zero =>
    intro s hs
    have : s = [] := List.eq_nil_of_length_eq_zero (Nat.le_zero.mp hs)
    subst this
    rw [Bool.eq_false_iff]
    intro hb
    rw [stripLeadAux] at hb
    have := List.isPrefixOf_iff_prefix.mp hb
    rcases List.prefix_nil.mp this with rfl
    exact hp rfl
  | succ n ih =>
    intro s hs
    rw [stripLeadAux]
    by_cases h : p ≠ [] ∧ p.isPrefixOf s
    · rw [if_pos h]
      apply ih
      have hlen : 1 ≤ p.length := by
        cases p with
        | nil => exact absurd rfl hp
        | cons a t => simp
      have := List.length_drop p.length s
      omega
    · rw [if_neg h]
      push_neg at h
      rw [Bool.eq_false_iff]
      intro hb
      exact absurd hb (by simpa using h hp)

theorem stripLeadAux_no_pre (p : List Char) (s : List Char)
    (h : p.isPrefixOf s = false) : ∀ fuel, stripLeadAux p fuel s = s := by
  intro fuel
  cases fuel with
  | zero => rfl
  | succ n =>
    rw [stripLeadAux, if_neg]
    rintro ⟨-, hpre⟩
    rw [h] at hpre
    exact absurd hpre (by simp)

theorem choose_first_char (av : List String) :
    ∀ (ml : List String) (m : String),
      choose_query_model none ml av = some m →
        m ∈ ml ∧ av.contains m = true ∧
        ∃ l₁ l₂, ml = l₁ ++ m :: l₂ ∧ ∀ x ∈ l₁, av.contains x = false := by
  intro ml
  induction ml with
  | nil => intro m h; simp [choose_query_model] at h
  | cons a t ih =>
    intro m h
    rw [choose_query_model] at h
    cases hc : av.contains a with
    | true =>
      rw [List.find?_cons_of_pos _ hc] at h
      cases h
      exact ⟨List.mem_cons_self a t, hc, [], t, rfl, by simp⟩
    | false =>
      rw [List.find?_cons_of_neg _
        (by simp only [hc]; exact fun hb => absurd hb (by simp))] at h
      rcases ih m h with ⟨hm, hcon, l₁, l₂, heq, hall⟩
      exact ⟨List.mem_cons_of_mem a hm, hcon, a :: l₁, l₂, by rw [heq]; rfl,
        by intro x hx; rcases List.mem_cons.mp hx with rfl | hx2
           · exact hc
           · exact hall x hx2⟩

theorem filterMap_if_eq_filter_map {α β : Type} (P : α → Prop) [DecidablePred P]
    (f : α → β) :
    ∀ l : List α,
      (l.filterMap fun a => if P a then none else some (f a)) =
        (l.filter fun a => decide ¬ P a).map f := by
  intro l
  induction l with
  | nil => rfl
  | cons a t ih =>
    by_cases h : P a
    · simp only [List.filterMap_cons, if_pos h, List.filter_cons,
        decide_eq_true_eq, h, not_true, decide_False]
      simpa using ih
    · simp only [List.filterMap_cons, if_neg h, List.filter_cons]
      rw [ih]
      simp [h]

/-! ## Claim theorems -/

/-- C8: `naturalize_query_question` is idempotent: applying it twice to any
input string yields the same result as applying it once. -/
theorem C8_naturalize_query_question_idempotent (q : String) :
    naturalize_query_question (naturalize_query_question q) =
      naturalize_query_question q := by
  unfold naturalize_query_question stripLeadAll
  have hp : consensusLead.data ≠ [] := by decide
  have h1 : consensusLead.data.isPrefixOf
      (stripLeadAux consensusLead.data q.data.length q.data) = false :=
    stripLeadAux_not_pre _ hp _ _ le_rfl
  rw [stripLeadAux_no_pre _ _ h1]

/-- C7: `generate_heuristic_queries` on the single LDL claim with run id
`run_test456` yields exactly one `QueryRow` with the claimed id, non-empty
query and rationale, "systematic review" among the preferred sources, and
provenance `{run_id := "run_test456", input_refs := ["clm_000001"]}`. -/
theorem C7_generate_heuristic_queries_scenario :
    (generate_heuristic_queries
      [⟨"clm_000001", "Higher LDL cholesterol increases cardiovascular risk",
        "medical_risk"⟩] "run_test456").length = 1 ∧
    ∀ row ∈ generate_heuristic_queries
      [⟨"clm_000001", "Higher LDL cholesterol increases cardiovascular risk",
        "medical_risk"⟩] "run_test456",
      row.claim_id = "clm_000001" ∧ row.query ≠ "" ∧ row.why_this_query ≠ "" ∧
      "systematic review" ∈ row.preferred_sources ∧
      row.run_id = "run_test456" ∧ row.input_refs = ["clm_000001"] := by
  constructor
  · rfl
  · decide

/-- Witness for C7: the single produced row, spelled out, satisfies every
asserted property. -/
theorem C7_witness :
    ({ claim_id := "clm_000001"
       query := "Higher LDL cholesterol increases cardiovascular risk?"
       why_this_query :=
         "Checks the strongest available evidence for this medical_risk claim."
       preferred_sources := ["systematic review", "meta-analysis", "clinical guideline"]
       run_id := "run_test456"
       input_refs := ["clm_000001"] } : QueryRow).claim_id = "clm_000001" ∧
    ({ claim_id := "clm_000001"
       query := "Higher LDL cholesterol increases cardiovascular risk?"
       why_this_query :=
         "Checks the strongest available evidence for this medical_risk claim."
       preferred_sources := ["systematic review", "meta-analysis", "clinical guideline"]
       run_id := "run_test456"
       input_refs := ["clm_000001"] } : QueryRow).query ≠ "" :=
  have h := C7_generate_heuristic_queries_scenario.2 _ (by decide)
  ⟨h.1, h.2.1⟩

/-- C5 counterexample: in the `extract-claims` command, requesting only
models absent from the backend's advertised list (which leaves nothing
usable) does not raise a hard failure — the command merely warns and
proceeds with the unfiltered model list, against the claim that every
extraction command escalates an emptied effective model list to a hard
failure. -/
theorem C5_counterexample :
    (extract_claims_availability ["gpt-oss:20b", "qwen3:4b"] []).isFail = false ∧
    extract_claims_availability ["gpt-oss:20b", "qwen3:4b"] [] =
      .proceed ["gpt-oss:20b", "qwen3:4b"]
        [missingWarn ["gpt-oss:20b", "qwen3:4b"]] :=
  ⟨rfl, rfl⟩

/-- C5 (amended): `run-pipeline` warns about missing models, filters them
out, and hard-fails exactly when no requested model remains available;
`extract-claims` warns about missing models but keeps the requested list
unchanged and never fails on availability. -/
theorem C5_availability_amended (ml av : List String) (hne : ml ≠ []) :
    (extract_claims_availability ml av).isFail = false ∧
    (find_missing_models ml av ≠ [] →
      extract_claims_availability ml av =
        .proceed ml [missingWarn (find_missing_models ml av)]) ∧
    ((run_pipeline_availability ml av).isFail = true ↔
      ∀ m ∈ ml, av.contains m = false) := by
  refine ⟨rfl, ?_, ?_⟩
  · intro h
    rw [extract_claims_availability, if_neg (by simpa [List.isEmpty_iff] using h)]
  · rw [run_pipeline_availability]
    by_cases hmiss : (find_missing_models ml av).isEmpty
    · rw [if_pos hmiss]
      simp only [CmdOutcome.isFail]
      constructor
      · intro h; exact absurd h (by simp)
      · intro h
        exfalso
        rcases List.exists_mem_of_ne_nil ml hne with ⟨m, hm⟩
        have hmm : m ∉ find_missing_models ml av := by
          rw [List.isEmpty_iff] at hmiss
          simp [hmiss]
        rw [find_missing_models] at hmm
        simp only [List.mem_filter] at hmm
        push_neg at hmm
        have := hmm hm
        rw [h m hm] at this
        simp at this
    · rw [if_neg hmiss]
      by_cases heff : (ml.filter fun m => ¬ (find_missing_models ml av).contains m).isEmpty
      · rw [if_pos heff]
        simp only [CmdOutcome.isFail, true_iff]
        intro m hm
        by_contra hc
        have hcon : av.contains m = true := by
          cases h : av.contains m
          · exact absurd h hc
          · rfl
        have hnotmiss : m ∉ find_missing_models ml av := by
          intro hmem
          rw [find_missing_models, List.mem_filter] at hmem
          have h2 := hmem.2
          simp [hcon] at h2
          exact h2 (List.elem_iff.mp hcon)
        have : m ∈ ml.filter fun x => ¬ (find_missing_models ml av).contains x := by
          rw [List.mem_filter]
          refine ⟨hm, ?_⟩
          simp only [decide_eq_true_eq]
          intro hcm
          exact hnotmiss (List.elem_iff.mp hcm)
        rw [List.isEmpty_iff] at heff
        rw [heff] at this
        exact absurd this (List.not_mem_nil m)
      · rw [if_neg heff]
        simp only [CmdOutcome.isFail]
        constructor
        · intro h; exact absurd h (by simp)
        intro h
        exfalso
        have hne2 : (ml.filter fun x => ¬ (find_missing_models ml av).contains x) ≠ [] := by
          intro hc
          rw [List.isEmpty_iff] at heff
          exact heff hc
        rcases List.exists_mem_of_ne_nil _ hne2 with ⟨m, hm⟩
        rw [List.mem_filter] at hm
        rcases hm with ⟨hml, hnm⟩
        simp only [decide_eq_true_eq] at hnm
        have hmiss2 : m ∉ find_missing_models ml av := fun hc => hnm (List.elem_iff.mpr hc)
        rw [find_missing_models] at hmiss2
        simp only [List.mem_filter, decide_eq_true_eq] at hmiss2
        push_neg at hmiss2
        have hav := hmiss2 hml
        rw [h m hml] at hav
        simp at hav

/-- Witness for C5 (amended) at a singleton request with an empty backend
list: `extract-claims` proceeds while `run-pipeline` hard-fails. -/
theorem C5_witness :
    (["gpt-oss:20b"] : List String) ≠ [] ∧
    (extract_claims_availability ["gpt-oss:20b"] []).isFail = false ∧
    ((run_pipeline_availability ["gpt-oss:20b"] []).isFail = true ↔
      ∀ m ∈ (["gpt-oss:20b"] : List String), List.contains [] m = false) :=
  have h := C5_availability_amended ["gpt-oss:20b"] [] (by decide)
  ⟨by decide, h.1, h.2.2⟩

/-- C6: with no explicit query model, `choose_query_model` picks the first
requested model advertised as available; when none qualifies it returns
`none` and `run_query_generation` emits the skip status and returns an empty
row list. -/
theorem C6_choose_query_model_skip (claims : List ClaimInfo)
    (ml av : List String)
    (gvq : List ClaimInfo → String → List QueryRow × List String)
    (h : ∀ m ∈ ml, av.contains m = false) :
    choose_query_model none ml av = none ∧
    run_query_generation claims none ml av gvq = ([], [skipQueryMsg]) ∧
    ∀ (qml qav : List String) (qm : String),
      choose_query_model none qml qav = some qm →
        qm ∈ qml ∧ qav.contains qm = true ∧
        ∃ l₁ l₂, qml = l₁ ++ qm :: l₂ ∧ ∀ x ∈ l₁, qav.contains x = false := by
  have hnone : choose_query_model none ml av = none := by
    rw [choose_query_model, List.find?_eq_none]
    intro x hx
    simp only [h x hx]
    exact fun hb => absurd hb (by simp)
  refine ⟨hnone, ?_, fun qml qav qm => choose_first_char qav qml qm⟩
  rw [run_query_generation, hnone]

/-- Witness for C6: empty `available_models` with one requested model skips
query generation without raising. -/
theorem C6_witness :
    choose_query_model none ["qwen3:4b"] [] = none ∧
    run_query_generation [] none ["qwen3:4b"] [] (fun _ _ => ([], [])) =
      ([], [skipQueryMsg]) :=
  have h := C6_choose_query_model_skip [] ["qwen3:4b"] []
    (fun _ _ => ([], [])) (by decide)
  ⟨h.1, h.2.1⟩

/-- C9: `build_segment_block` over the whole segment list renders exactly one
line per segment whose stripped `seg_id` and collapsed `text` are non-empty,
in input order, each of the form `"seg_id | start | speaker | text"`
(`segmentLine`), joined by newlines; truncation to `max_segments` behaves as
restriction to the list prefix. -/
theorem C9_build_segment_block_lines (segments : List Segment) :
    segmentLines segments segments.length =
      (segments.filter fun s =>
        decide ¬(trimWs s.seg_id = "" ∨ collapseWs s.text = "")).map segmentLine ∧
    build_segment_block segments segments.length =
      String.intercalate "\n"
        ((segments.filter fun s =>
          decide ¬(trimWs s.seg_id = "" ∨ collapseWs s.text = "")).map segmentLine) ∧
    ∀ m, segmentLines segments m =
      segmentLines (segments.take m) (segments.take m).length := by
  have h1 : segmentLines segments segments.length =
      (segments.filter fun s =>
        decide ¬(trimWs s.seg_id = "" ∨ collapseWs s.text = "")).map segmentLine := by
    rw [segmentLines, List.take_length]
    exact filterMap_if_eq_filter_map _ _ segments
  refine ⟨h1, ?_, ?_⟩
  · rw [build_segment_block, h1]
  · intro m
    rw [segmentLines, segmentLines, List.take_length]

theorem chunksFromAux_getElem {α : Type} (size step : Nat) (hstep : 1 ≤ step) :
    ∀ (fuel : Nat) (l : List α), l.length ≤ fuel →
      ∀ j, j < (chunksFromAux size step fuel l).length →
        (chunksFromAux size step fuel l)[j]? =
          some ((l.drop (j * step)).take size) := by
  intro fuel
  induction fuel with
  | zero =>
    intro l hl j hj
    simp only [chunksFromAux, List.length_singleton] at hj
    interval_cases j
    simp [chunksFromAux]
  | succ n ih =>
    intro l hl j hj
    simp only [chunksFromAux] at hj ⊢
    by_cases h : l.length ≤ size
    · rw [if_pos h] at hj ⊢
      simp only [List.length_singleton] at hj
      interval_cases j
      simp
    · rw [if_neg h] at hj ⊢
      cases j with
      | zero => simp
      | succ k =>
        simp only [List.length_cons, Nat.succ_lt_succ_iff] at hj
        simp only [List.getElem?_cons_succ]
        rw [ih (l.drop step) (by simp; omega) k (by exact hj)]
        rw [List.drop_drop]
        congr 3
        ring

theorem chunksFromAux_mem_flatten {α : Type} (size step : Nat) (hstep : 1 ≤ step)
    (hss : step ≤ size) (x : α) :
    ∀ (fuel : Nat) (l : List α), l.length ≤ fuel →
      (x ∈ (chunksFromAux size step fuel l).flatten ↔ x ∈ l) := by
  intro fuel
  induction fuel with
  | zero =>
    intro l hl
    have : l = [] := List.eq_nil_of_length_eq_zero (Nat.le_zero.mp hl)
    subst this
    simp [chunksFromAux]
  | succ n ih =>
    intro l hl
    simp only [chunksFromAux]
    by_cases h : l.length ≤ size
    · rw [if_pos h]
      simp [List.take_of_length_le h]
    · rw [if_neg h]
      simp only [List.flatten_cons, List.mem_append]
      rw [ih (l.drop step) (by simp; omega)]
      constructor
      · rintro (hx | hx)
        · exact List.take_subset size l hx
        · exact List.drop_subset step l hx
      · intro hx
        by_cases hx2 : x ∈ l.take step
        · left
          have : l.take step = (l.take size).take step := by
            rw [List.take_take, min_eq_left hss]
          rw [this] at hx2
          exact List.take_subset step (l.take size) hx2
        · right
          rcases List.mem_append.mp ((List.take_append_drop step l) ▸ hx) with h3 | h3
          · exact absurd h3 hx2
          · exact h3

theorem chunksFromAux_length_le {α : Type} (size step : Nat) :
    ∀ (fuel : Nat) (l : List α), ∀ c ∈ chunksFromAux size step fuel l,
      c.length ≤ size := by
  intro fuel
  induction fuel with
  | zero =>
    intro l c hc
    simp only [chunksFromAux, List.mem_singleton] at hc
    subst hc
    exact List.length_take_le size l
  | succ n ih =>
    intro l c hc
    simp only [chunksFromAux] at hc
    by_cases h : l.length ≤ size
    · rw [if_pos h] at hc
      simp only [List.mem_singleton] at hc
      subst hc
      exact List.length_take_le size l
    · rw [if_neg h] at hc
      rcases List.mem_cons.mp hc with rfl | hc2
      · exact List.length_take_le size l
      · exact ih (l.drop step) c hc2

theorem chunksFromAux_head {α : Type} (size step : Nat) :
    ∀ (fuel : Nat) (l : List α),
      (chunksFromAux size step fuel l).head? = some (l.take size) := by
  intro fuel l
  cases fuel with
  | zero => rfl
  | succ n =>
    simp only [chunksFromAux]
    by_cases h : l.length ≤ size
    · rw [if_pos h]; rfl
    · rw [if_neg h]; rfl

theorem chunksFromAux_chain {α : Type} (size step overlap : Nat) (hstep : 1 ≤ step)
    (hsum : size = step + overlap) :
    ∀ (fuel : Nat) (l : List α), l.length ≤ fuel →
      List.Chain'
        (fun c1 c2 => c1.drop step = c2.take overlap ∧
          (c1.drop step).length = overlap)
        (chunksFromAux size step fuel l) := by
  intro fuel
  induction fuel with
  | zero =>
    intro l hl
    simp [chunksFromAux]
  | succ n ih =>
    intro l hl
    simp only [chunksFromAux]
    by_cases h : l.length ≤ size
    · rw [if_pos h]
      simp
    · rw [if_neg h]
      rw [List.chain'_cons']
      refine ⟨?_, ih (l.drop step) (by simp; omega)⟩
      intro b hb
      rw [chunksFromAux_head size step n (l.drop step)] at hb
      cases hb
      constructor
      · rw [List.drop_take, List.take_take, min_eq_left (by omega : overlap ≤ size)]
        congr 1
        omega
      · rw [List.drop_take]
        simp only [List.length_take, List.length_drop]
        omega

/-- C3: for `chunk_size ≥ 1` and `0 ≤ chunk_overlap < chunk_size`,
`build_chunks` covers exactly the input segments (flatten-membership
equality), each chunk is the size-bounded window at its stepped offset (so
chunk order matches input order), every chunk has length at most
`chunk_size`, adjacent chunks share exactly `chunk_overlap` segments, and
the empty segment list yields the empty chunk list. -/
theorem C3_build_chunks_spec {α : Type} (l : List α) (size overlap : Nat)
    (_hsz : 1 ≤ size) (hov : overlap < size) :
    (∀ x : α, x ∈ (build_chunks l size overlap).flatten ↔ x ∈ l) ∧
    (∀ j, j < (build_chunks l size overlap).length →
      (build_chunks l size overlap)[j]? =
        some ((l.drop (j * (size - overlap))).take size)) ∧
    (∀ c ∈ build_chunks l size overlap, c.length ≤ size) ∧
    List.Chain'
      (fun c1 c2 => c1.drop (size - overlap) = c2.take overlap ∧
        (c1.drop (size - overlap)).length = overlap)
      (build_chunks l size overlap) ∧
    build_chunks ([] : List α) size overlap = [] := by
  have hstep : 1 ≤ size - overlap := by omega
  have hss : size - overlap ≤ size := by omega
  have hsum : size = (size - overlap) + overlap := by omega
  have hnil : build_chunks ([] : List α) size overlap = [] := by
    rw [build_chunks, if_pos (by rfl)]
  by_cases hl : l.isEmpty
  · rw [List.isEmpty_iff] at hl
    subst hl
    refine ⟨?_, ?_, ?_, ?_, hnil⟩
    · intro x; rw [hnil]; simp
    · intro j hj; rw [hnil] at hj; simp at hj
    · intro c hc; rw [hnil] at hc; simp at hc
    · rw [hnil]; simp
  · have hbc : build_chunks l size overlap =
        chunksFromAux size (size - overlap) l.length l := by
      rw [build_chunks, if_neg hl]
    refine ⟨?_, ?_, ?_, ?_, hnil⟩
    · intro x
      rw [hbc]
      exact chunksFromAux_mem_flatten size (size - overlap) hstep hss x l.length l le_rfl
    · intro j hj
      rw [hbc] at hj ⊢
      exact chunksFromAux_getElem size (size - overlap) hstep l.length l le_rfl j hj
    · intro c hc
      rw [hbc] at hc
      exact chunksFromAux_length_le size (size - overlap) l.length l c hc
    · rw [hbc]
      exact chunksFromAux_chain size (size - overlap) overlap hstep hsum l.length l le_rfl


/-- Witness for C3 on a concrete five-element list with `chunk_size = 3`,
`chunk_overlap = 1`. -/
theorem C3_witness :
    ((1 : Nat) ≤ 3 ∧ 1 < 3) ∧
    ((3 : Nat) ∈ (build_chunks [1, 2, 3, 4, 5] 3 1).flatten ↔
      (3 : Nat) ∈ [1, 2, 3, 4, 5]) ∧
    build_chunks ([] : List Nat) 3 1 = [] :=
  ⟨by decide,
    (C3_build_chunks_spec [1, 2, 3, 4, 5] 3 1 (by decide) (by decide)).1 3,
    (C3_build_chunks_spec [1, 2, 3, 4, 5] 3 1 (by decide) (by decide)).2.2.2.2⟩

theorem runChunks_fst_acc {σ : Type} (respond : String → Nat → ChatResult)
    (d r m : String) (sbs : List (String × Int)) (n : Nat)
    (sink : σ → String → σ) :
    ∀ (cs : List (List Segment)) (i : Nat) (acc : List ClaimRow) (s : σ),
      (runChunks respond d r m sbs n sink i cs acc s).1 =
        acc ++ ((List.range cs.length).map
          fun j => chunkRows d m r sbs (respond m (i + j))).flatten := by
  intro cs
  induction cs with
  | nil => intro i acc s; simp [runChunks]
  | cons c cs ih =>
    intro i acc s
    have harr : ((List.range (cs.length + 1)).map
        fun j => chunkRows d m r sbs (respond m (i + j))) =
        chunkRows d m r sbs (respond m i) ::
          ((List.range cs.length).map
            fun j => chunkRows d m r sbs (respond m (i + 1 + j))) := by
      rw [List.range_succ_eq_map, List.map_cons, List.map_map, Nat.add_zero]
      congr 1
      exact List.map_congr_left fun a _ => by
        simp only [Function.comp_apply]
        congr 2
        omega
    simp only [runChunks, List.length_cons, harr, List.flatten_cons]
    cases hres : respond m i with
    | transportErr e => rw [ih]; simp [chunkRows]
    | chatErr e => rw [ih]; simp [chunkRows]
    | parseErr e => rw [ih]; simp [chunkRows]
    | payload f =>
      cases f with
      | absent => rw [ih]; simp [chunkRows]
      | notList => rw [ih]; simp [chunkRows]
      | clist rawClaims => rw [ih]; simp [chunkRows]

theorem runModels_fst_acc {σ : Type} (respond : String → Nat → ChatResult)
    (d r : String) (sbs : List (String × Int)) (chunks : List (List Segment))
    (sink : σ → String → σ) :
    ∀ (ms : List String) (acc : List ClaimRow) (s : σ),
      (runModels respond d r sbs chunks sink ms acc s).1 =
        acc ++ (ms.map fun m =>
          dedupe_and_assign_claim_ids
            (((List.range chunks.length).map
              fun j => chunkRows d m r sbs (respond m (1 + j))).flatten)).flatten := by
  intro ms
  induction ms with
  | nil => intro acc s; simp [runModels]
  | cons m ms ih =>
    intro acc s
    simp only [runModels, List.map_cons, List.flatten_cons]
    rw [ih, runChunks_fst_acc]
    simp [List.append_assoc]

theorem extract_fst_acc {σ : Type} (doc_id run_id : String)
    (segments : List Segment) (model_list : List String)
    (respond : String → Nat → ChatResult) (chunk_size chunk_overlap : Nat)
    (sink : σ → String → σ) (s0 : σ) :
    (extract_claims_for_models doc_id segments model_list respond chunk_size
      chunk_overlap sink s0 run_id).1 =
      dedupe_and_assign_claim_ids
        ((model_list.map fun m =>
          dedupe_and_assign_claim_ids
            (((List.range (build_chunks segments chunk_size chunk_overlap).length).map
              fun j => chunkRows doc_id m run_id (startTimeBySegId segments)
                (respond m (1 + j))).flatten)).flatten) := by
  rw [extract_claims_for_models]
  rw [runModels_fst_acc]
  rfl

theorem runChunks_snd_mem (respond : String → Nat → ChatResult)
    (d r m : String) (sbs : List (String × Int)) (n : Nat) (x : String) :
    ∀ (cs : List (List Segment)) (i : Nat) (acc : List ClaimRow)
      (s : List String), x ∈ s →
      x ∈ (runChunks respond d r m sbs n listSink i cs acc s).2 := by
  intro cs
  induction cs with
  | nil => intro i acc s hx; exact hx
  | cons c cs ih =>
    intro i acc s hx
    simp only [runChunks]
    cases respond m i with
    | transportErr e => exact ih _ _ _ (List.mem_append_left _ hx)
    | chatErr e => exact ih _ _ _ (List.mem_append_left _ hx)
    | parseErr e => exact ih _ _ _ (List.mem_append_left _ hx)
    | payload f =>
      cases f with
      | absent => exact ih _ _ _ (List.mem_append_left _ hx)
      | notList => exact ih _ _ _ (List.mem_append_left _ hx)
      | clist rawClaims => exact ih _ _ _ (List.mem_append_left _ hx)

theorem runChunks_fail_mem (respond : String → Nat → ChatResult)
    (d r m : String) (sbs : List (String × Int)) (n : Nat) (msg : String) :
    ∀ (cs : List (List Segment)) (j i : Nat) (acc : List ClaimRow)
      (s : List String), j < cs.length →
      failureStatus m (i + j) (respond m (i + j)) = some msg →
      msg ∈ (runChunks respond d r m sbs n listSink i cs acc s).2 := by
  intro cs
  induction cs with
  | nil => intro j i acc s hj; exact absurd hj (by simp)
  | cons c cs ih =>
    intro j i acc s hj hf
    cases j with
    | zero =>
      rw [Nat.add_zero] at hf
      simp only [runChunks]
      cases hres : respond m i with
      | transportErr e =>
        rw [hres] at hf
        simp only [failureStatus, Option.some_inj] at hf
        subst hf
        exact runChunks_snd_mem respond d r m sbs n _ cs (i + 1) acc _
          (List.mem_append_right _ (List.mem_singleton.mpr rfl))
      | chatErr e =>
        rw [hres] at hf
        simp only [failureStatus, Option.some_inj] at hf
        subst hf
        exact runChunks_snd_mem respond d r m sbs n _ cs (i + 1) acc _
          (List.mem_append_right _ (List.mem_singleton.mpr rfl))
      | parseErr e =>
        rw [hres] at hf
        simp only [failureStatus, Option.some_inj] at hf
        subst hf
        exact runChunks_snd_mem respond d r m sbs n _ cs (i + 1) acc _
          (List.mem_append_right _ (List.mem_singleton.mpr rfl))
      | payload f =>
        rw [hres] at hf
        cases f with
        | absent => simp [failureStatus] at hf
        | notList =>
          simp only [failureStatus, Option.some_inj] at hf
          subst hf
          exact runChunks_snd_mem respond d r m sbs n _ cs (i + 1) acc _
            (List.mem_append_right _ (List.mem_singleton.mpr rfl))
        | clist rawClaims => simp [failureStatus] at hf
    | succ k =>
      have hf2 : failureStatus m ((i + 1) + k) (respond m ((i + 1) + k)) = some msg := by
        have : (i + 1) + k = i + (k + 1) := by omega
        rw [this]
        exact hf
      have hk : k < cs.length := by
        simp only [List.length_cons] at hj
        omega
      simp only [runChunks]
      cases respond m i with
      | transportErr e => exact ih k (i + 1) acc _ hk hf2
      | chatErr e => exact ih k (i + 1) acc _ hk hf2
      | parseErr e => exact ih k (i + 1) acc _ hk hf2
      | payload f =>
        cases f with
        | absent => exact ih k (i + 1) _ _ hk hf2
        | notList => exact ih k (i + 1) acc _ hk hf2
        | clist rawClaims => exact ih k (i + 1) _ _ hk hf2

theorem runModels_snd_mem (respond : String → Nat → ChatResult)
    (d r : String) (sbs : List (String × Int)) (chunks : List (List Segment))
    (x : String) :
    ∀ (ms : List String) (acc : List ClaimRow) (s : List String), x ∈ s →
      x ∈ (runModels respond d r sbs chunks listSink ms acc s).2 := by
  intro ms
  induction ms with
  | nil => intro acc s hx; exact hx
  | cons m ms ih =>
    intro acc s hx
    simp only [runModels]
    apply ih
    apply List.mem_append_left
    exact runChunks_snd_mem respond d r m sbs chunks.length x chunks 1 [] _
      (List.mem_append_left _ hx)

theorem runModels_fail_mem (respond : String → Nat → ChatResult)
    (d r : String) (sbs : List (String × Int)) (chunks : List (List Segment))
    (m : String) (i : Nat) (msg : String) (h1 : 1 ≤ i)
    (h2 : i ≤ chunks.length)
    (hf : failureStatus m i (respond m i) = some msg) :
    ∀ (ms : List String) (acc : List ClaimRow) (s : List String), m ∈ ms →
      msg ∈ (runModels respond d r sbs chunks listSink ms acc s).2 := by
  intro ms
  induction ms with
  | nil => intro acc s hm; exact absurd hm (List.not_mem_nil m)
  | cons m' ms ih =>
    intro acc s hm
    simp only [runModels]
    rcases List.mem_cons.mp hm with rfl | hm2
    · apply runModels_snd_mem
      apply List.mem_append_left
      have hf2 : failureStatus m (1 + (i - 1)) (respond m (1 + (i - 1))) = some msg := by
        have : 1 + (i - 1) = i := by omega
        rw [this]
        exact hf
      exact runChunks_fail_mem respond d r m sbs chunks.length msg chunks (i - 1) 1
        [] _ (by omega) hf2
    · exact ih _ _ hm2

/-- C2: the rows returned by `extract_claims_for_models` decompose per
(model, chunk): each chunk contributes a function of its own call outcome
alone, every failing outcome (transport error, chat exception, JSON parse
failure, non-list `claims` field) contributes no rows, and a failing
(model, chunk) call always leaves its status line in the emitted status
stream — so a per-chunk failure never affects the rows contributed by other
chunks or models and never aborts extraction. -/
theorem C2_per_chunk_failure_isolated (doc_id run_id : String) (segments : List Segment)
    (model_list : List String) (respond : String → Nat → ChatResult)
    (chunk_size chunk_overlap : Nat) :
    (∀ (σ : Type) (sink : σ → String → σ) (s0 : σ),
      (extract_claims_for_models doc_id segments model_list respond chunk_size
        chunk_overlap sink s0 run_id).1 =
      dedupe_and_assign_claim_ids
        ((model_list.map fun m =>
          dedupe_and_assign_claim_ids
            (((List.range (build_chunks segments chunk_size chunk_overlap).length).map
              fun j => chunkRows doc_id m run_id (startTimeBySegId segments)
                (respond m (1 + j))).flatten)).flatten)) ∧
    (∀ (m : String) (i : Nat) (res : ChatResult),
      (failureStatus m i res).isSome = true →
        chunkRows doc_id m run_id (startTimeBySegId segments) res = []) ∧
    (∀ (m : String) (i : Nat) (msg : String), m ∈ model_list →
      1 ≤ i → i ≤ (build_chunks segments chunk_size chunk_overlap).length →
      failureStatus m i (respond m i) = some msg →
      msg ∈ (extract_claims_for_models doc_id segments model_list respond
        chunk_size chunk_overlap listSink [] run_id).2) := by
  refine ⟨?_, ?_, ?_⟩
  · intro σ sink s0
    exact extract_fst_acc doc_id run_id segments model_list respond chunk_size
      chunk_overlap sink s0
  · intro m i res hsome
    cases res with
    | transportErr e => rfl
    | chatErr e => rfl
    | parseErr e => rfl
    | payload f =>
      cases f with
      | absent => simp [failureStatus] at hsome
      | notList => rfl
      | clist cs => simp [failureStatus] at hsome
  · intro m i msg hm h1 h2 hf
    rw [extract_claims_for_models]
    exact runModels_fail_mem respond doc_id run_id (startTimeBySegId segments)
      (build_chunks segments chunk_size chunk_overlap) m i msg h1 h2 hf
      model_list [] [] hm

/-- Witness for C2: a single-model, single-chunk run whose only chat call
returns unparseable JSON emits the parse-failure status line. -/
theorem C2_witness :
    ("m1" ∈ (["m1"] : List String) ∧ (1 : Nat) ≤ 1 ∧
      1 ≤ (build_chunks [(⟨"seg_000001", "A", 0, "hello"⟩ : Segment)] 3 1).length) ∧
    parseFailMsg "m1" 1 "bad json" ∈
      (extract_claims_for_models "doc" [⟨"seg_000001", "A", 0, "hello"⟩]
        ["m1"] (fun _ _ => .parseErr "bad json") 3 1 listSink [] "run").2 :=
  ⟨⟨by decide, by decide, by decide⟩,
    (C2_per_chunk_failure_isolated "doc" "run" [⟨"seg_000001", "A", 0, "hello"⟩] ["m1"]
      (fun _ _ => .parseErr "bad json") 3 1).2.2 "m1" 1
      (parseFailMsg "m1" 1 "bad json") (by decide) (by decide) (by decide) rfl⟩

/-- C10: the row list returned by `extract_claims_for_models` does not depend
on the status sink: runs over identical inputs and backend responses with any
two sinks and initial states return identical rows. -/
theorem C10_rows_independent_of_status_sink (σ σ' : Type) (doc_id run_id : String)
    (segments : List Segment) (model_list : List String)
    (respond : String → Nat → ChatResult) (chunk_size chunk_overlap : Nat)
    (sink : σ → String → σ) (s0 : σ) (sink' : σ' → String → σ') (s0' : σ') :
    (extract_claims_for_models doc_id segments model_list respond chunk_size
      chunk_overlap sink s0 run_id).1 =
    (extract_claims_for_models doc_id segments model_list respond chunk_size
      chunk_overlap sink' s0' run_id).1 := by
  rw [extract_fst_acc, extract_fst_acc]

theorem assignIds_map_claim_id :
    ∀ (n : Nat) (l : List ClaimRow),
      (assignIds n l).map (fun x => x.claim_id) =
        (List.range l.length).map (fun i => fmtClaimId (n + i)) := by
  intro n l
  induction l generalizing n with
  | nil => rfl
  | cons r rs ih =>
    simp only [assignIds, List.map_cons, List.length_cons,
      List.range_succ_eq_map, List.map_map]
    rw [ih (n + 1), Nat.add_zero]
    congr 1
    exact List.map_congr_left fun a _ => by
      simp only [Function.comp_apply]
      congr 1
      omega

theorem assignIds_length :
    ∀ (n : Nat) (l : List ClaimRow), (assignIds n l).length = l.length := by
  intro n l
  induction l generalizing n with
  | nil => rfl
  | cons r rs ih => simp [assignIds, ih]

theorem mem_assignIds :
    ∀ (n : Nat) (l : List ClaimRow) (b : ClaimRow), b ∈ assignIds n l →
      ∃ x ∈ l, ∃ k, b = { x with claim_id := fmtClaimId k } := by
  intro n l
  induction l generalizing n with
  | nil => intro b hb; exact absurd hb (List.not_mem_nil b)
  | cons r rs ih =>
    intro b hb
    rcases List.mem_cons.mp hb with rfl | hb2
    · exact ⟨r, List.mem_cons_self r rs, n, rfl⟩
    · rcases ih (n + 1) b hb2 with ⟨x, hx, k, hk⟩
      exact ⟨x, List.mem_cons_of_mem r hx, k, hk⟩

theorem rowLE_setId_left (a b : ClaimRow) (x : String) :
    rowLE { a with claim_id := x } b ↔ rowLE a b := Iff.rfl

theorem sorted_assignIds :
    ∀ (n : Nat) (l : List ClaimRow), List.Sorted rowLE l →
      List.Sorted rowLE (assignIds n l) := by
  intro n l
  induction l generalizing n with
  | nil => intro _; exact List.sorted_nil
  | cons r rs ih =>
    intro h
    rw [List.sorted_cons] at h
    rw [assignIds, List.sorted_cons]
    refine ⟨?_, ih (n + 1) h.2⟩
    intro b hb
    rcases mem_assignIds (n + 1) rs b hb with ⟨x, hx, k, hk⟩
    subst hk
    exact h.1 x hx

theorem map_rowKey_assignIds :
    ∀ (n : Nat) (l : List ClaimRow),
      (assignIds n l).map rowKey = l.map rowKey := by
  intro n l
  induction l generalizing n with
  | nil => rfl
  | cons r rs ih => simp only [assignIds, List.map_cons, ih]; rfl

theorem assignIds_assignIds :
    ∀ (n : Nat) (l : List ClaimRow),
      assignIds n (assignIds n l) = assignIds n l := by
  intro n l
  induction l generalizing n with
  | nil => rfl
  | cons r rs ih => simp only [assignIds, ih]

theorem sorted_dedupe (rows : List ClaimRow) :
    List.Sorted rowLE (dedupe_and_assign_claim_ids rows) := by
  rw [dedupe_and_assign_claim_ids]
  exact sorted_assignIds 1 _ (List.sorted_insertionSort rowLE _)

theorem earliestRep_mem :
    ∀ (rs : List ClaimRow) (r : ClaimRow), earliestRep r rs ∈ r :: rs := by
  intro rs
  induction rs with
  | nil => intro r; exact List.mem_singleton.mpr rfl
  | cons x rs ih =>
    intro r
    have hunfold : earliestRep r (x :: rs) =
        earliestRep (if x.time_start < r.time_start then x else r) rs := rfl
    rw [hunfold]
    have h := ih (if x.time_start < r.time_start then x else r)
    rcases List.mem_cons.mp h with he | he
    · by_cases hc : x.time_start < r.time_start
      · rw [if_pos hc] at he ⊢
        rw [he]
        exact List.mem_cons_of_mem r (List.mem_cons_self x rs)
      · rw [if_neg hc] at he ⊢
        rw [he]
        exact List.mem_cons_self r (x :: rs)
    · by_cases hc : x.time_start < r.time_start
      · rw [if_pos hc] at he ⊢
        exact List.mem_cons_of_mem r (List.mem_cons_of_mem x he)
      · rw [if_neg hc] at he ⊢
        exact List.mem_cons_of_mem r (List.mem_cons_of_mem x he)

theorem rowKey_mergeGroup (k : String × String) :
    ∀ (g : List ClaimRow), g ≠ [] → (∀ x ∈ g, rowKey x = k) →
      rowKey (mergeGroup g) = k := by
  intro g hg hall
  cases g with
  | nil => exact absurd rfl hg
  | cons r rs =>
    have : rowKey (mergeGroup (r :: rs)) = rowKey (earliestRep r rs) := rfl
    rw [this]
    exact hall _ (earliestRep_mem rs r)

theorem map_eq_self_of_forall {α : Type} (f : α → α) :
    ∀ (l : List α), (∀ x ∈ l, f x = x) → l.map f = l := by
  intro l h
  induction l with
  | nil => rfl
  | cons a t ih =>
    rw [List.map_cons, h a (List.mem_cons_self a t),
      ih (fun x hx => h x (List.mem_cons_of_mem a hx))]

theorem map_rowKey_mergeDuplicates (rows : List ClaimRow) :
    (mergeDuplicates rows).map rowKey = (rows.map rowKey).dedup := by
  rw [mergeDuplicates, List.map_map]
  apply map_eq_self_of_forall
  intro k hk
  simp only [Function.comp_apply]
  have hkmem : k ∈ rows.map rowKey := List.dedup_subset _ hk
  rcases List.mem_map.mp hkmem with ⟨r, hr, hrk⟩
  apply rowKey_mergeGroup
  · intro hnil
    have : r ∈ rows.filter (fun t => rowKey t = k) := by
      rw [List.mem_filter]
      exact ⟨hr, by simp [hrk]⟩
    rw [hnil] at this
    exact absurd this (List.not_mem_nil r)
  · intro x hx
    have := (List.mem_filter.mp hx).2
    simpa using this

theorem nodup_keys_mergeDuplicates (rows : List ClaimRow) :
    ((mergeDuplicates rows).map rowKey).Nodup := by
  rw [map_rowKey_mergeDuplicates]
  exact List.nodup_dedup _

theorem mergeGroup_singleton (r : ClaimRow) (h1 : r.evidence.Nodup)
    (h2 : r.input_refs = r.evidence.map (fun e => e.seg_id)) :
    mergeGroup [r] = r := by
  have hded : (r.evidence ++ []).dedup = r.evidence := by
    rw [List.append_nil]
    exact List.dedup_eq_self.mpr h1
  rcases r with ⟨cid, doc, sp, ct, cty, br, mo, ev, ts, te, ri, ir⟩
  simp only [mergeGroup, earliestRep, List.foldl_nil, List.map_nil,
    List.map_cons, List.flatten_cons, List.flatten_nil, maxBoldness,
    List.foldl_cons, List.filterMap_cons, List.filterMap_nil] at *
  rw [List.append_nil] at hded ⊢
  rw [hded]
  cases sp with
  | none =>
    cases br with
    | none => simp_all
    | some b => simp_all
  | some spv =>
    cases br with
    | none => simp_all
    | some b => simp_all

theorem mergeDuplicates_self :
    ∀ (out : List ClaimRow), (out.map rowKey).Nodup →
      (∀ r ∈ out, mergeGroup [r] = r) → mergeDuplicates out = out := by
  intro out hnd hmg
  rw [mergeDuplicates, List.dedup_eq_self.mpr hnd, List.map_map]
  induction out with
  | nil => rfl
  | cons x xs ih =>
    simp only [List.map_cons, List.map_map, Function.comp_apply] at hnd ⊢
    rw [List.nodup_cons] at hnd
    have hx : (x :: xs).filter (fun t => rowKey t = rowKey x) = [x] := by
      rw [List.filter_cons]
      rw [if_pos (by simp)]
      have : xs.filter (fun t => rowKey t = rowKey x) = [] := by
        rw [List.filter_eq_nil_iff]
        intro t ht
        simp only [decide_eq_true_eq]
        intro hc
        exact hnd.1 (hc ▸ (List.mem_map_of_mem rowKey ht))
      rw [this]
    congr 1
    · rw [hx]
      exact hmg x (List.mem_cons_self x xs)
    · have heq : ∀ k ∈ xs.map rowKey,
          mergeGroup ((x :: xs).filter (fun t => rowKey t = k)) =
            mergeGroup (xs.filter (fun t => rowKey t = k)) := by
        intro k hk
        rw [List.filter_cons]
        rw [if_neg]
        simp only [decide_eq_true_eq]
        intro hc
        exact hnd.1 (hc ▸ hk)
      rw [← List.map_map]
      rw [List.map_congr_left (fun k hk => heq k hk)]
      rw [List.map_map]
      exact ih hnd.2 (fun r hr => hmg r (List.mem_cons_of_mem x hr))

theorem mergeGroup_invariant (g : List ClaimRow) :
    (mergeGroup g).evidence.Nodup ∧
    (mergeGroup g).input_refs = (mergeGroup g).evidence.map (fun e => e.seg_id) := by
  cases g with
  | nil => exact ⟨List.nodup_nil, rfl⟩
  | cons r rs => exact ⟨List.nodup_dedup _, rfl⟩

theorem dedupe_row_invariant (rows : List ClaimRow) :
    ∀ r ∈ dedupe_and_assign_claim_ids rows,
      r.evidence.Nodup ∧ r.input_refs = r.evidence.map (fun e => e.seg_id) := by
  intro r hr
  rw [dedupe_and_assign_claim_ids] at hr
  rcases mem_assignIds 1 _ r hr with ⟨x, hx, k, hk⟩
  rw [List.mem_insertionSort] at hx
  rw [mergeDuplicates] at hx
  rcases List.mem_map.mp hx with ⟨key, _, hkey⟩
  subst hk
  have := mergeGroup_invariant (rows.filter (fun t => rowKey t = key))
  rw [hkey] at this
  exact this

theorem map_rowKey_dedupe (rows : List ClaimRow) :
    (dedupe_and_assign_claim_ids rows).map rowKey =
      ((List.insertionSort rowLE (mergeDuplicates rows)).map rowKey) := by
  rw [dedupe_and_assign_claim_ids, map_rowKey_assignIds]

theorem nodup_keys_dedupe (rows : List ClaimRow) :
    ((dedupe_and_assign_claim_ids rows).map rowKey).Nodup := by
  rw [map_rowKey_dedupe]
  have hperm : List.Perm
      ((List.insertionSort rowLE (mergeDuplicates rows)).map rowKey)
      ((mergeDuplicates rows).map rowKey) :=
    (List.perm_insertionSort rowLE (mergeDuplicates rows)).map rowKey
  exact hperm.nodup_iff.mpr (nodup_keys_mergeDuplicates rows)

/-- C4: `dedupe_and_assign_claim_ids` is idempotent on its own output:
reapplying it merges nothing further and reassigns the identical IDs. -/
theorem C4_dedupe_idempotent (rows : List ClaimRow) :
    dedupe_and_assign_claim_ids (dedupe_and_assign_claim_ids rows) =
      dedupe_and_assign_claim_ids rows := by
  have hmerge : mergeDuplicates (dedupe_and_assign_claim_ids rows) =
      dedupe_and_assign_claim_ids rows := by
    apply mergeDuplicates_self
    · exact nodup_keys_dedupe rows
    · intro r hr
      have h := dedupe_row_invariant rows r hr
      exact mergeGroup_singleton r h.1 h.2
  have hsort : List.insertionSort rowLE (dedupe_and_assign_claim_ids rows) =
      dedupe_and_assign_claim_ids rows :=
    (sorted_dedupe rows).insertionSort_eq
  conv_lhs => rw [dedupe_and_assign_claim_ids]
  rw [hmerge, hsort]
  conv_lhs => rw [dedupe_and_assign_claim_ids]
  rw [assignIds_assignIds]
  rw [← dedupe_and_assign_claim_ids]

/-- C1: `dedupe_and_assign_claim_ids` leaves its output sorted by
`(time_range_s.start, claim_text)` and assigns `claim_id = "clm_%06d"`
positionally, 1-based, in that order; and the full extraction is
deterministic: two runs over identical inputs with backend oracles agreeing
on every (model, chunk) call return identical rows, IDs included. -/
theorem C1_dedupe_sorted_sequential_ids (rows : List ClaimRow) :
    ((dedupe_and_assign_claim_ids rows).map fun x => x.claim_id) =
      ((List.range (dedupe_and_assign_claim_ids rows).length).map
        fun i => fmtClaimId (i + 1)) ∧
    List.Sorted rowLE (dedupe_and_assign_claim_ids rows) ∧
    ∀ (σ : Type) (doc_id run_id : String) (segments : List Segment)
      (model_list : List String)
      (respond respond' : String → Nat → ChatResult)
      (chunk_size chunk_overlap : Nat) (sink : σ → String → σ) (s0 : σ),
      (∀ m i, respond m i = respond' m i) →
      (extract_claims_for_models doc_id segments model_list respond chunk_size
        chunk_overlap sink s0 run_id).1 =
      (extract_claims_for_models doc_id segments model_list respond' chunk_size
        chunk_overlap sink s0 run_id).1 := by
  refine ⟨?_, sorted_dedupe rows, ?_⟩
  · rw [dedupe_and_assign_claim_ids, assignIds_map_claim_id, assignIds_length]
    exact List.map_congr_left fun a _ => by congr 1; omega
  · intro σ doc_id run_id segments model_list respond respond' cs co sink s0 h
    have : respond = respond' := funext fun m => funext fun i => h m i
    rw [this]

/-- Witness for C1: the determinism clause applied to a concrete run with the
two oracles literally equal. -/
theorem C1_witness :
    (extract_claims_for_models "doc" [] ["m1"]
      (fun _ _ => .payload .absent) 3 1 listSink [] "run").1 =
    (extract_claims_for_models "doc" [] ["m1"]
      (fun _ _ => .payload .absent) 3 1 listSink [] "run").1 :=
  (C1_dedupe_sorted_sequential_ids []).2.2 (List String) "doc" "run" [] ["m1"]
    (fun _ _ => .payload .absent) (fun _ _ => .payload .absent) 3 1 listSink []
    (fun _ _ => rfl)
